import Mathlib

/-!
Shallow embedding of the chat synchronization engine of
`ha-config/www/clawdbot-panel.js` (the poll / merge / pagination logic in
lines ~43-667, duplicated verbatim as a second copy later in the file).

Conventions of the embedding:
* JS strings that may be absent (`undefined` / `null` / `''`) are modelled as
  `String` with `""` for the falsy case, matching JS truthiness of strings.
* JS `Set` objects whose only used operations are `has` / `add` / copy are
  modelled as `List String` with membership via `List.contains`.
* The module-level mutable variables (`chatItems`, `chatHasOlder`, ...) are
  gathered in the structure `ChatState`; each JS function becomes a function
  on that state.  `await` points split a JS function into a start phase and
  an apply phase, with the network response passed as an argument.
-/

namespace Clawdbot

/-- Chat constants (clawdbot-panel.js lines 43-49). -/
def CHAT_POLL_INTERVAL_MS : Nat := 5000

def CHAT_POLL_FAST_MS : Nat := 2000

def CHAT_POLL_INITIAL_MS : Nat := 1000

def CHAT_POLL_BOOST_WINDOW_MS : Nat := 30000

def CHAT_DELTA_LIMIT : Nat := 200

def CHAT_HISTORY_PAGE_LIMIT : Nat := 50

def CHAT_UI_MAX_ITEMS : Nat := 200

/-- One chat item as delivered by the service responses.  Fields the engine
reads: `id` / `message_id` / `messageId` (dedupe key sources), `role`, `ts`
(ISO8601 timestamp string, compared lexicographically), `text`.  `""` models
a missing / falsy field. -/
structure ChatItem where
  id : String := ""
  message_id : String := ""
  messageId : String := ""
  role : String := ""
  ts : String := ""
  text : String := ""
deriving DecidableEq, Repr

/-- JS `ToInt32`: wrap an integer to the signed 32-bit range. -/
def toInt32 (x : Int) : Int :=
  let m := x % (4294967296 : Int)
  if m < 2147483648 then m else m - 4294967296

/-- JS `>>> 0`: wrap an integer to the unsigned 32-bit range. -/
def toUint32 (x : Int) : Nat := (x % (4294967296 : Int)).toNat

/-- One step of the djb2 loop `h = ((h << 5) + h) + s.charCodeAt(i)`:
`h << 5` coerces `h` to Int32 and yields an Int32; the additions are exact
(double-precision floats hold these magnitudes exactly). -/
def hashStep (h : Int) (c : Char) : Int :=
  toInt32 (toInt32 h * 32) + h + (c.toNat : Int)

/-- `simpleHash` (lines 351-357): djb2-style 32-bit hash, rendered as
lowercase hex by `(h >>> 0).toString(16)`. -/
def simpleHash (str : String) : String :=
  let h := str.data.foldl hashStep (5381 : Int)
  (Nat.toDigits 16 (toUint32 h)).asString

/-- JS `a || b` on strings: `a` when truthy (nonempty), else `b`. -/
def jsOr (a b : String) : String := if a = "" then b else a

/-- `chatItemKey` (lines 359-368): the dedupe key of an item — its id
(`id || message_id || messageId`) when present, otherwise a hash of
`role|ts|text` prefixed with `h_`.  (The JS `if (!it) return ''` null guard
has no counterpart: the embedding has no null items.) -/
def chatItemKey (it : ChatItem) : String :=
  let id := jsOr it.id (jsOr it.message_id it.messageId)
  if id = "" then
    "h_" ++ simpleHash (it.role ++ "|" ++ it.ts ++ "|" ++ it.text)
  else id

/-- Kernel-reducible decidability for the lexicographic string order (the
default byte-iterator instance does not reduce); JS compares strings by
code units, which is this order on the BMP. -/
instance stringLtDec (s t : String) : Decidable (s < t) :=
  decidable_of_iff (s.toList < t.toList) String.lt_iff_toList_lt.symm

/-- One step of the `maxChatTs` loop: `if (ts && ts > max) max = ts`. -/
def maxTsStep (mx : String) (it : ChatItem) : String :=
  if it.ts ≠ "" ∧ mx < it.ts then it.ts else mx

/-- `maxChatTs` (lines 480-487): the lexicographic maximum of the nonempty
`ts` fields in the window, `""` when there is none.  This is the value used
as `after_ts` for the next delta query — the forward cursor. -/
def maxChatTs (items : List ChatItem) : String :=
  items.foldl maxTsStep ""

/-- One step of the merge loop in `pollSessionsHistory` (lines 620-625):
skip the item when its key is empty or already in `existing`, otherwise
push it and record its key.  Accumulator: (window so far, key set). -/
def mergeStep (acc : List ChatItem × List String) (it : ChatItem) :
    List ChatItem × List String :=
  let k := chatItemKey it
  if k = "" ∨ acc.2.contains k then acc
  else (acc.1 ++ [it], k :: acc.2)

/-- The merge of a delta batch in `pollSessionsHistory` (lines 617-628):
guarded by `if (newer.length)`; dedupe against the key set of the current
window; afterwards `if (chatItems.length > 200) chatItems = chatItems.slice(-200)`. -/
def mergeNewer (chatItems : List ChatItem) (newer : List ChatItem) :
    List ChatItem :=
  if newer = [] then chatItems
  else
    let existing := chatItems.map chatItemKey
    let merged := (newer.foldl mergeStep (chatItems, existing)).1
    if merged.length > 200 then merged.drop (merged.length - 200) else merged

/-- One step of the +N counting loop (lines 633-639): keys already in
`nextSeen` (which starts as the pre-merge snapshot) are skipped; a fresh
key is added and counted when the item is agent-role. -/
def appendedStep (acc : List String × Nat) (it : ChatItem) :
    List String × Nat :=
  let key := chatItemKey it
  if key = "" then acc
  else if acc.1.contains key then acc
  else (key :: acc.1, if it.role = "agent" then acc.2 + 1 else acc.2)

/-- The +N computation of `pollSessionsHistory` (lines 630-641): returns the
new `chatLastSeenIds` and `chatLastPollAppended`. -/
def pollAppended (seenBefore : List String) (newer : List ChatItem) :
    List String × Nat :=
  newer.foldl appendedStep (seenBefore, 0)

/-- The module-level mutable chat state (lines 51-61); fields the claims do
not touch (`chatLastPollTs`, `chatLastPollError`, `chatPollBoostUntil`) are
omitted.  `chatSessionKey = ""` models `null`; `chatPollTimer = some d`
models a pending `setTimeout` with delay `d`. -/
structure ChatState where
  chatItems : List ChatItem := []
  chatHasOlder : Bool := false
  chatLoadingOlder : Bool := false
  chatSessionKey : String := ""
  chatPollingActive : Bool := false
  chatPollTimer : Option Nat := none
  chatLastSeenIds : List String := []
  chatLastPollAppended : Nat := 0
deriving DecidableEq, Repr

/-- `syncChatSeenIds` (lines 370-376): initialize the seen-key set from the
window — but only when the set is still empty; otherwise a no-op, because
the poll loop is the sole owner of advancing it. -/
def syncChatSeenIds (st : ChatState) : ChatState :=
  if st.chatLastSeenIds ≠ [] then st
  else { st with
         chatLastSeenIds :=
           (st.chatItems.map chatItemKey).filter (fun k => k ≠ "") }

/-- `scheduleChatPoll` (lines 587-591): no-op when polling is inactive;
otherwise clear any pending timer and set a new one with delay
`Math.max(500, delayMs)`.  The single `chatPollTimer` cell holds the new
pending delay. -/
def scheduleChatPoll (st : ChatState) (delayMs : Nat) : ChatState :=
  if st.chatPollingActive then { st with chatPollTimer := some (max 500 delayMs) }
  else st

/-- The data captured by `pollSessionsHistory` before its awaits (lines
604-612): the session key at call start, the copied seen-set snapshot, and
`after_ts` computed from the current window. -/
structure PendingPoll where
  currentSession : String
  seenBefore : List String
  afterTs : String
deriving DecidableEq, Repr

/-- The synchronous part of `pollSessionsHistory` before the delta response
arrives. -/
def pollStart (st : ChatState) : PendingPoll :=
  { currentSession := st.chatSessionKey
    seenBefore := st.chatLastSeenIds
    afterTs := maxChatTs st.chatItems }

/-- The post-response part of `pollSessionsHistory` (lines 614-641): merge
the batch into the window, recompute the seen set and the +N counter from
the pre-merge snapshot.  Note: the function applies the result to whatever
state is current — it never compares `p.currentSession` with
`st.chatSessionKey` (the captured key is only used to address the RPCs). -/
def pollApply (st : ChatState) (p : PendingPoll) (newer : List ChatItem) :
    ChatState :=
  let items := mergeNewer st.chatItems newer
  let r := pollAppended p.seenBefore newer
  { st with
    chatItems := items
    chatLastSeenIds := r.1
    chatLastPollAppended := r.2 }

/-- The anchor scan of `loadOlderChat` (lines 509-514): the id of the first
(oldest-end) item that has an id, `none` when no item has one. -/
def firstId : List ChatItem → Option String
  | [] => none
  | it :: rest => if it.id = "" then firstId rest else some it.id

/-- The synchronous part of `loadOlderChat` before its await (lines
507-521).  Result: the state after the synchronous mutations, and
`some beforeId` when a network request was issued (`none` = no request). -/
def loadOlderStart (st : ChatState) : ChatState × Option String :=
  if st.chatLoadingOlder then (st, none)
  else
    match firstId st.chatItems with
    | none => ({ st with chatHasOlder := false }, none)
    | some beforeId => ({ st with chatLoadingOlder := true }, some beforeId)

/-- The success path of `loadOlderChat` after the response (lines 529-541
plus the `finally`): filter out items without an id or whose id is already
in the window, prepend the remainder in order, take `has_older` from the
response, run `syncChatSeenIds`, and reset `chatLoadingOlder`. -/
def loadOlderApply (st : ChatState) (items : List ChatItem)
    (has_older : Bool) : ChatState :=
  let existing := (st.chatItems.map (fun it => it.id)).filter (fun i => i ≠ "")
  let toPrepend :=
    items.filter (fun it => ¬ (it.id = "" ∨ existing.contains it.id))
  let newItems :=
    if toPrepend = [] then st.chatItems else toPrepend ++ st.chatItems
  let st := syncChatSeenIds
    { st with chatItems := newItems, chatHasOlder := has_older }
  { st with chatLoadingOlder := false }

/-- The failure path of `loadOlderChat` (lines 542-547): the catch only
logs; the `finally` resets `chatLoadingOlder`. -/
def loadOlderFail (st : ChatState) : ChatState :=
  { st with chatLoadingOlder := false }

/-- The success path of `loadChatLatest` (lines 489-505): replace the
window and `chatHasOlder` from the response, then `syncChatSeenIds`.  (On
failure the catch only logs, so the state is unchanged.) -/
def loadChatLatestApply (st : ChatState) (items : List ChatItem)
    (has_older : Bool) : ChatState :=
  syncChatSeenIds { st with chatItems := items, chatHasOlder := has_older }

/-- The session-select `onchange` handler (lines 3549-3556): set
`chatSessionKey` from the select value, reload the latest history
(`resp = none` models a failed `loadChatLatest`, which is caught and leaves
the state unchanged), then — when polling is active — reschedule the poll
at `CHAT_POLL_INITIAL_MS`. -/
def sessionOnChange (st : ChatState) (newKey : String)
    (resp : Option (List ChatItem × Bool)) : ChatState :=
  let st := { st with chatSessionKey := newKey }
  let st :=
    match resp with
    | none => st
    | some r => loadChatLatestApply st r.1 r.2
  if st.chatPollingActive then scheduleChatPoll st CHAT_POLL_INITIAL_MS else st

namespace PollModel

/-- Timer-level model of the poll scheduling (`startChatPolling`,
`scheduleChatPoll`, `stopChatPolling`, lines 550-591): `pend` is the
multiset of live timers as (handle, delay) pairs created by `setTimeout`;
`chatPollTimer` remembers the handle stored in the module variable.
Handles start at 1 because a JS timer handle is a positive integer (and the
code tests `if (chatPollTimer)` by truthiness). -/
structure PollSys where
  chatPollingActive : Bool := false
  chatPollTimer : Option Nat := none
  pend : List (Nat × Nat) := []
  nextHandle : Nat := 1
deriving DecidableEq, Repr

/-- The initial module state: polling off, no timer pending. -/
def pollInit : PollSys := {}

/-- `clearTimeout(h)`: remove the timer with handle `h` from the live set
(a no-op when the handle is `null` or already fired). -/
def clearTimeout (s : PollSys) (h : Option Nat) : PollSys :=
  match h with
  | none => s
  | some t => { s with pend := s.pend.filter (fun p => p.1 ≠ t) }

/-- `setTimeout(fn, d)`: create a fresh live timer, returning its handle. -/
def setTimeout (s : PollSys) (d : Nat) : PollSys × Nat :=
  ({ s with pend := s.pend ++ [(s.nextHandle, d)], nextHandle := s.nextHandle + 1 },
   s.nextHandle)

/-- `scheduleChatPoll` (lines 587-591): when polling is active, clear the
remembered timer, then set a new one with delay `Math.max(500, delayMs)`. -/
def scheduleChatPoll (s : PollSys) (delayMs : Nat) : PollSys :=
  if s.chatPollingActive then
    let s := clearTimeout s s.chatPollTimer
    let r := setTimeout s (max 500 delayMs)
    { r.1 with chatPollTimer := some r.2 }
  else s

/-- `startChatPolling` (lines 576-581): a no-op when already active;
otherwise activate and schedule the first cycle at `CHAT_POLL_INITIAL_MS`. -/
def startChatPolling (s : PollSys) : PollSys :=
  if s.chatPollingActive then s
  else scheduleChatPoll { s with chatPollingActive := true } CHAT_POLL_INITIAL_MS

/-- `stopChatPolling` (lines 550-561): deactivate, clear and forget the
remembered timer. -/
def stopChatPolling (s : PollSys) : PollSys :=
  match s.chatPollTimer with
  | none => { s with chatPollingActive := false }
  | some t =>
    { s with chatPollingActive := false,
             pend := s.pend.filter (fun p => p.1 ≠ t),
             chatPollTimer := none }

/-- A pending timer fires: the runtime removes it from the live set and
runs `pollSessionsHistory`, which returns at once when polling is inactive
and otherwise ends every path (no session, success, error) in a
`scheduleChatPoll` call; `d` is the delay that path computes. -/
def fireTimer (s : PollSys) (t : Nat) (d : Nat) : PollSys :=
  if s.chatPollingActive then
    scheduleChatPoll { s with pend := s.pend.filter (fun p => p.1 ≠ t) } d
  else { s with pend := s.pend.filter (fun p => p.1 ≠ t) }

/-- Every event that touches the poll timers: a `startChatPolling` call, a
`stopChatPolling` call, a direct `scheduleChatPoll` call (session switch,
local send), or a pending timer firing. -/
inductive PollStep : PollSys → PollSys → Prop where
  | start (s : PollSys) : PollStep s (startChatPolling s)
  | stop (s : PollSys) : PollStep s (stopChatPolling s)
  | reschedule (s : PollSys) (d : Nat) : PollStep s (scheduleChatPoll s d)
  | fire (s : PollSys) (t d : Nat) (ht : t ∈ s.pend.map Prod.fst) :
      PollStep s (fireTimer s t d)

/-- The timer discipline the code maintains: at most one live poll timer,
it is the remembered one, and its delay was clamped to at least 500 ms. -/
def PollInv (s : PollSys) : Prop :=
  s.pend.length ≤ 1 ∧ ∀ p ∈ s.pend, s.chatPollTimer = some p.1 ∧ 500 ≤ p.2

lemma pollInv_clear_remembered (s : PollSys) (h : PollInv s) :
    (clearTimeout s s.chatPollTimer).pend = [] := by
  rcases h with ⟨-, h2⟩
  cases htimer : s.chatPollTimer with
  | none =>
    simp only [clearTimeout]
    cases hp : s.pend with
    | nil => rfl
    | cons p rest =>
      exact absurd ((h2 p (by simp [hp])).1.symm.trans htimer) (by simp)
  | some t =>
    simp only [clearTimeout, List.filter_eq_nil_iff]
    intro p hp
    have := (h2 p hp).1.symm.trans htimer
    simp only [Option.some.injEq] at this
    simp [this]

lemma pollInv_schedule (s : PollSys) (d : Nat) (h : PollInv s) :
    PollInv (scheduleChatPoll s d) := by
  unfold scheduleChatPoll
  split
  · have hnil := pollInv_clear_remembered s h
    refine ⟨?_, ?_⟩
    · simp [setTimeout, hnil]
    · intro p hp
      simp only [setTimeout, hnil, List.nil_append, List.mem_singleton] at hp
      subst hp
      exact ⟨rfl, le_max_left _ _⟩
  · exact h

lemma pollInv_start (s : PollSys) (h : PollInv s) :
    PollInv (startChatPolling s) := by
  unfold startChatPolling
  split
  · exact h
  · exact pollInv_schedule _ _ ⟨h.1, fun p hp => (h.2 p hp)⟩

lemma pollInv_stop (s : PollSys) (h : PollInv s) :
    PollInv (stopChatPolling s) := by
  unfold stopChatPolling
  cases htimer : s.chatPollTimer with
  | none =>
    refine ⟨h.1, fun p hp => absurd ((h.2 p hp).1.symm.trans htimer) (by simp)⟩
  | some t =>
    have hnil : s.pend.filter (fun p => p.1 ≠ t) = [] := by
      rw [List.filter_eq_nil_iff]
      intro q hq
      have h1 := (h.2 q hq).1.symm.trans htimer
      simp only [Option.some.injEq] at h1
      simp [h1]
    have hnil2 := hnil
    simp only [ne_eq, decide_not] at hnil2
    dsimp only
    refine ⟨?_, ?_⟩
    · simp [hnil2]
    · intro p hp
      rw [hnil] at hp
      exact absurd hp (List.not_mem_nil p)

lemma pollInv_fire (s : PollSys) (t d : Nat) (h : PollInv s) :
    PollInv (fireTimer s t d) := by
  have hmid : PollInv { s with pend := s.pend.filter (fun p => p.1 ≠ t) } := by
    refine ⟨le_trans (List.length_filter_le _ _) h.1, ?_⟩
    intro p hp
    exact h.2 p (List.mem_of_mem_filter hp)
  unfold fireTimer
  split
  · exact pollInv_schedule _ _ hmid
  · exact hmid

lemma pollInv_step (s s2 : PollSys) (h : PollInv s) (hs : PollStep s s2) :
    PollInv s2 := by
  cases hs with
  | start => exact pollInv_start _ h
  | stop => exact pollInv_stop _ h
  | reschedule d => exact pollInv_schedule _ d h
  | fire t d ht => exact pollInv_fire _ t d h

lemma pollInv_reachable (s : PollSys)
    (h : Relation.ReflTransGen PollStep pollInit s) : PollInv s := by
  induction h with
  | refl => exact ⟨by simp [pollInit], by simp [pollInit]⟩
  | tail _ step ih => exact pollInv_step _ _ ih step

/-- Claim C10 (confirmed): in every state reachable from the initial module
state by start / stop / reschedule / timer-fire events, at most one poll
timer is pending, every pending delay is at least 500 ms, and calling
`startChatPolling` while polling is active is a no-op. -/
theorem poll_timer_discipline (s : PollSys)
    (h : Relation.ReflTransGen PollStep pollInit s) :
    s.pend.length ≤ 1 ∧ (∀ p ∈ s.pend, 500 ≤ p.2) ∧
      (s.chatPollingActive = true → startChatPolling s = s) := by
  have hinv := pollInv_reachable s h
  refine ⟨hinv.1, fun p hp => (hinv.2 p hp).2, fun ha => ?_⟩
  simp [startChatPolling, ha]

/-- Witness for C10 at the concrete state reached by one `startChatPolling`
call from the initial state. -/
theorem poll_timer_discipline_witness :
    (startChatPolling pollInit).pend.length ≤ 1 ∧
      (∀ p ∈ (startChatPolling pollInit).pend, 500 ≤ p.2) ∧
      ((startChatPolling pollInit).chatPollingActive = true →
        startChatPolling (startChatPolling pollInit) = startChatPolling pollInit) :=
  poll_timer_discipline (startChatPolling pollInit)
    (Relation.ReflTransGen.single (PollStep.start pollInit))

end PollModel

/-- Claim C9 (confirmed): a `loadOlderChat` call made while `chatLoadingOlder`
is set returns at once — no request is issued and the state is unchanged —
and both the success path and the failure path of an in-flight call reset
the flag, so a later retry is possible. -/
theorem loadOlder_single_flight (st st2 : ChatState) (items : List ChatItem)
    (ho : Bool) (h : st.chatLoadingOlder = true) :
    loadOlderStart st = (st, none) ∧
    (loadOlderApply st2 items ho).chatLoadingOlder = false ∧
    (loadOlderFail st2).chatLoadingOlder = false := by
  refine ⟨?_, ?_, rfl⟩
  · simp [loadOlderStart, h]
  · simp [loadOlderApply]

/-- Witness for C9 at a concrete in-flight state. -/
theorem loadOlder_single_flight_witness :
    loadOlderStart { chatLoadingOlder := true } =
      ({ chatLoadingOlder := true }, none) ∧
    (loadOlderApply {} [] true).chatLoadingOlder = false ∧
    (loadOlderFail {}).chatLoadingOlder = false :=
  loadOlder_single_flight { chatLoadingOlder := true } {} [] true rfl

lemma chatItemKey_ne_empty (it : ChatItem) : chatItemKey it ≠ "" := by
  simp only [chatItemKey]
  split
  · intro h
    have h2 := congrArg String.length h
    rw [String.length_append] at h2
    have h3 : ("h_" : String).length = 2 := rfl
    have h4 : ("" : String).length = 0 := rfl
    omega
  · assumption

lemma contains_iff_mem {l : List String} {a : String} :
    l.contains a = true ↔ a ∈ l := List.elem_iff

lemma contains_cons_of_ne {k kx : String} {seen : List String} (h : kx ≠ k) :
    (k :: seen).contains kx = seen.contains kx := by
  rw [List.contains_cons]
  simp [h]

/-- The predicate the +N counter is specified to count: batch items whose
key is absent from the pre-merge seen-key snapshot and whose role is
`agent`. -/
def newAgent (seen : List String) (it : ChatItem) : Bool :=
  !(seen.contains (chatItemKey it)) && (it.role == "agent")

lemma pollAppended_foldl (b : List ChatItem) :
    ∀ (seen : List String) (c : Nat), (b.map chatItemKey).Nodup →
      (b.foldl appendedStep (seen, c)).2 = c + b.countP (newAgent seen) := by
  induction b with
  | nil => intro seen c _; simp
  | cons it rest ih =>
    intro seen c h
    rw [List.map_cons, List.nodup_cons] at h
    obtain ⟨hk, hrest⟩ := h
    rw [List.foldl_cons]
    have hkey := chatItemKey_ne_empty it
    by_cases hseen : seen.contains (chatItemKey it) = true
    · have hmem : chatItemKey it ∈ seen := contains_iff_mem.mp hseen
      have hstep : appendedStep (seen, c) it = (seen, c) := by
        simp [appendedStep, hkey, hmem]
      have hhead : newAgent seen it = false := by simp [newAgent, hmem]
      rw [hstep, ih seen c hrest, List.countP_cons, hhead]
      simp
    · have hstep : appendedStep (seen, c) it =
          (chatItemKey it :: seen, if it.role = "agent" then c + 1 else c) := by
        simp only [appendedStep]
        rw [if_neg hkey, if_neg hseen]
      rw [hstep, ih (chatItemKey it :: seen) _ hrest]
      have hcnt : rest.countP (newAgent (chatItemKey it :: seen)) =
          rest.countP (newAgent seen) := by
        apply List.countP_congr
        intro x hx
        have hne : chatItemKey x ≠ chatItemKey it := by
          intro hcontra
          exact hk (hcontra ▸ List.mem_map_of_mem chatItemKey hx)
        rw [newAgent, newAgent, contains_cons_of_ne hne]
      have hnmem : chatItemKey it ∉ seen := fun hm => hseen (contains_iff_mem.mpr hm)
      have hheadv : newAgent seen it = (it.role == "agent") := by
        simp [newAgent, hnmem]
      rw [hcnt, List.countP_cons, hheadv]
      by_cases hrole : it.role = "agent"
      · simp [hrole]; omega
      · have : (it.role == "agent") = false := by simp [hrole]
        simp [hrole, this]

/-- Claim C7 (confirmed): for any delta batch with pairwise-distinct dedupe
keys, the poll cycle sets `chatLastPollAppended` to exactly the number of
batch items whose key is absent from the pre-merge seen-key snapshot and
whose role is `agent` — in particular, if exactly k fresh agent messages
arrive between two polls, the counter equals k. -/
theorem poll_appended_count (st : ChatState) (p : PendingPoll)
    (newer : List ChatItem) (h : (newer.map chatItemKey).Nodup) :
    (pollApply st p newer).chatLastPollAppended =
      newer.countP (newAgent p.seenBefore) := by
  have h2 := pollAppended_foldl newer p.seenBefore 0 h
  simpa [pollApply, pollAppended] using h2

/-- Witness for C7: a batch of one already-seen agent item, one fresh agent
item and one fresh user item yields a count of exactly 1. -/
theorem poll_appended_count_witness :
    (([{ id := "a1", role := "agent" }, { id := "a2", role := "agent" },
       { id := "u1", role := "user" }] : List ChatItem).map chatItemKey).Nodup ∧
    (pollApply {} { currentSession := "s", seenBefore := ["a1"], afterTs := "" }
        [{ id := "a1", role := "agent" }, { id := "a2", role := "agent" },
         { id := "u1", role := "user" }]).chatLastPollAppended =
      ([{ id := "a1", role := "agent" }, { id := "a2", role := "agent" },
        { id := "u1", role := "user" }] : List ChatItem).countP (newAgent ["a1"]) :=
  ⟨by decide,
   poll_appended_count {} { currentSession := "s", seenBefore := ["a1"], afterTs := "" }
     _ (by decide)⟩

/-- Claim C1 (corrected; theorem for the amended claim): the poll-cycle
merge preserves the MAX_WINDOW bound — a window of at most 200 items still
has at most 200 items after any merge.  (Pagination prepend and initial
load do not trim; see the counterexample.) -/
theorem mergeNewer_bounded (w b : List ChatItem) (h : w.length ≤ 200) :
    (mergeNewer w b).length ≤ 200 := by
  unfold mergeNewer
  split
  · exact h
  · dsimp only
    split
    · rw [List.length_drop]
      omega
    · omega

/-- Witness for the amended C1. -/
theorem mergeNewer_bounded_witness :
    ([({ id := "a" } : ChatItem)].length ≤ 200) ∧
    (mergeNewer [{ id := "a" }] [{ id := "b" }]).length ≤ 200 :=
  ⟨by decide, mergeNewer_bounded [{ id := "a" }] [{ id := "b" }] (by decide)⟩

/-- A 200-item window of distinct-id items at one timestamp, used to refute
the unrestricted window bound. -/
def c1win : List ChatItem :=
  (List.range 200).map
    (fun n => { id := String.mk [Char.ofNat (65 + n)], ts := "2024-01-01T00:00:05Z" })

set_option maxRecDepth 40000 in
/-- Counterexample to C1 as stated: a backward-pagination prepend onto a
full 200-item window yields 201 items — `loadOlderChat` never trims. -/
theorem loadOlder_exceeds_window_cap :
    (loadOlderApply
        { chatItems := c1win, chatHasOlder := true, chatLoadingOlder := true }
        [{ id := "!", ts := "2024-01-01T00:00:04Z" }] true).chatItems.length = 201 := by
  decide

/-- Claim C2 (corrected; theorem for the amended claim): the session-switch
handler replaces the session key, replaces the window and `hasOlder` from
the fresh fetch of the new session, and — when polling is active —
replaces any pending poll timer with one at the initial interval; but the
seen-key set is NOT cleared: it survives the switch whenever it is
nonempty. -/
theorem switch_session_behavior (st : ChatState) (newKey : String)
    (items : List ChatItem) (ho : Bool) (h : st.chatLastSeenIds ≠ []) :
    (sessionOnChange st newKey (some (items, ho))).chatSessionKey = newKey ∧
    (sessionOnChange st newKey (some (items, ho))).chatItems = items ∧
    (sessionOnChange st newKey (some (items, ho))).chatHasOlder = ho ∧
    (sessionOnChange st newKey (some (items, ho))).chatLastSeenIds =
      st.chatLastSeenIds ∧
    (st.chatPollingActive = true →
      (sessionOnChange st newKey (some (items, ho))).chatPollTimer =
        some CHAT_POLL_INITIAL_MS) ∧
    (st.chatPollingActive = false →
      (sessionOnChange st newKey (some (items, ho))).chatPollTimer =
        st.chatPollTimer) := by
  have hmax : max 500 CHAT_POLL_INITIAL_MS = CHAT_POLL_INITIAL_MS := rfl
  cases hact : st.chatPollingActive <;>
    simp [sessionOnChange, loadChatLatestApply, syncChatSeenIds,
      scheduleChatPoll, h, hact, hmax]

/-- Witness for the amended C2. -/
theorem switch_session_behavior_witness :
    (({ chatSessionKey := "A", chatLastSeenIds := ["k"],
        chatPollingActive := true, chatPollTimer := some 5000 } :
          ChatState).chatLastSeenIds ≠ []) ∧
    (sessionOnChange
        { chatSessionKey := "A", chatLastSeenIds := ["k"],
          chatPollingActive := true, chatPollTimer := some 5000 }
        "B" (some ([], false))).chatSessionKey = "B" ∧
    (sessionOnChange
        { chatSessionKey := "A", chatLastSeenIds := ["k"],
          chatPollingActive := true, chatPollTimer := some 5000 }
        "B" (some ([], false))).chatLastSeenIds = ["k"] ∧
    (sessionOnChange
        { chatSessionKey := "A", chatLastSeenIds := ["k"],
          chatPollingActive := true, chatPollTimer := some 5000 }
        "B" (some ([], false))).chatPollTimer = some CHAT_POLL_INITIAL_MS := by
  have h := switch_session_behavior
    { chatSessionKey := "A", chatLastSeenIds := ["k"],
      chatPollingActive := true, chatPollTimer := some 5000 }
    "B" [] false (by decide)
  exact ⟨by decide, h.1, h.2.2.2.1, h.2.2.2.2.1 rfl⟩

/-- Counterexample to C2 as stated: after a session switch the seen-key set
still holds the previous session's key — `syncChatSeenIds` returns early
whenever the set is nonempty, so nothing ever clears it. -/
theorem switch_session_keeps_seen_keys :
    (sessionOnChange
        { chatSessionKey := "A", chatLastSeenIds := ["oldKey"],
          chatPollingActive := true, chatPollTimer := some 5000 }
        "B" (some ([{ id := "n1", ts := "2024-01-02T00:00:00Z" }], false))
      ).chatLastSeenIds = ["oldKey"] := by
  decide

/-- The merge of a singleton batch whose key is fresh appends the item. -/
lemma mergeNewer_singleton_fresh (w : List ChatItem) (it : ChatItem)
    (hlen : w.length < 200)
    (hfresh : chatItemKey it ∉ w.map chatItemKey) :
    mergeNewer w [it] = w ++ [it] := by
  have hcond : ¬ (chatItemKey it = "" ∨
      (w.map chatItemKey).contains (chatItemKey it) = true) := by
    rw [not_or]
    exact ⟨chatItemKey_ne_empty it,
      fun hcont => hfresh (contains_iff_mem.mp hcont)⟩
  have hfold : List.foldl mergeStep (w, w.map chatItemKey) [it] =
      (w ++ [it], chatItemKey it :: w.map chatItemKey) := by
    rw [List.foldl_cons, List.foldl_nil]
    simp only [mergeStep]
    rw [if_neg hcond]
  simp only [mergeNewer]
  rw [if_neg (by simp : ¬ ([it] = ([] : List ChatItem))), hfold]
  dsimp only
  rw [if_neg (by rw [List.length_append, List.length_singleton]; omega)]

/-- Claim C3 (corrected; theorem for the amended claim): applying a poll
result never re-checks the session key — even when the captured session
differs from the current one, the batch is merged into the current window
(here: a fresh singleton batch is appended), not discarded. -/
theorem pollApply_ignores_session (st : ChatState) (p : PendingPoll)
    (it : ChatItem) (hstale : p.currentSession ≠ st.chatSessionKey)
    (hlen : st.chatItems.length < 200)
    (hfresh : chatItemKey it ∉ st.chatItems.map chatItemKey) :
    (pollApply st p [it]).chatItems = st.chatItems ++ [it] := by
  have h := mergeNewer_singleton_fresh st.chatItems it hlen hfresh
  simpa [pollApply] using h

/-- Witness for the amended C3. -/
theorem pollApply_ignores_session_witness :
    (("A" : String) ≠ ({ chatSessionKey := "B" } : ChatState).chatSessionKey) ∧
    (({ chatSessionKey := "B" } : ChatState).chatItems.length < 200) ∧
    (chatItemKey { id := "x", ts := "2024-01-01T00:00:01Z", role := "agent" } ∉
      (({ chatSessionKey := "B" } : ChatState).chatItems.map chatItemKey)) ∧
    (pollApply { chatSessionKey := "B" }
        { currentSession := "A", seenBefore := [], afterTs := "" }
        [{ id := "x", ts := "2024-01-01T00:00:01Z", role := "agent" }]).chatItems =
      ({ chatSessionKey := "B" } : ChatState).chatItems ++
        [{ id := "x", ts := "2024-01-01T00:00:01Z", role := "agent" }] :=
  ⟨by decide, by decide, by decide,
   pollApply_ignores_session { chatSessionKey := "B" }
     { currentSession := "A", seenBefore := [], afterTs := "" }
     { id := "x", ts := "2024-01-01T00:00:01Z", role := "agent" }
     (by decide) (by decide) (by decide)⟩

/-- Counterexample to C3 as stated: a poll started under session A applied
after a switch to session B mutates B's window — nothing discards the
stale response. -/
theorem stale_poll_response_merged :
    (({ currentSession := "A", seenBefore := [], afterTs := "" } :
        PendingPoll).currentSession ≠
      ({ chatSessionKey := "B" } : ChatState).chatSessionKey) ∧
    (pollApply { chatSessionKey := "B" }
        { currentSession := "A", seenBefore := [], afterTs := "" }
        [{ id := "x", ts := "2024-01-01T00:00:01Z", role := "agent" }]).chatItems ≠
      ({ chatSessionKey := "B" } : ChatState).chatItems := by
  decide

/-- Folding the merge step over a batch whose keys are all already in the
key set is a no-op on the accumulator. -/
lemma foldl_mergeStep_all_dup (b : List ChatItem) :
    ∀ (w : List ChatItem) (S : List String),
      (∀ it2 ∈ b, chatItemKey it2 ∈ S) →
      b.foldl mergeStep (w, S) = (w, S) := by
  induction b with
  | nil => intro w S _; rfl
  | cons it rest ih =>
    intro w S hall
    rw [List.foldl_cons]
    have hstep : mergeStep (w, S) it = (w, S) := by
      simp only [mergeStep]
      rw [if_pos (Or.inr (contains_iff_mem.mpr (hall it (List.mem_cons_self it rest))))]
    rw [hstep]
    exact ih w S (fun it2 h2 => hall it2 (List.mem_cons_of_mem it h2))

/-- Claim C4 (corrected; theorem for the amended claim): a batch whose keys
are all already present is a no-op on a within-cap window AND on the
forward cursor — `after_ts` is recomputed from the window each cycle, so a
skipped duplicate's newer timestamp never advances it. -/
theorem merge_dup_batch_noop (w b : List ChatItem)
    (hdup : ∀ it ∈ b, chatItemKey it ∈ w.map chatItemKey)
    (hlen : w.length ≤ 200) :
    mergeNewer w b = w ∧ maxChatTs (mergeNewer w b) = maxChatTs w := by
  have hm : mergeNewer w b = w := by
    by_cases hb : b = []
    · subst hb; simp [mergeNewer]
    · simp only [mergeNewer]
      rw [if_neg hb, foldl_mergeStep_all_dup b w _ hdup]
      dsimp only
      rw [if_neg (by omega)]
  exact ⟨hm, by rw [hm]⟩

/-- Witness for the amended C4. -/
theorem merge_dup_batch_noop_witness :
    (∀ it ∈ ([{ id := "a", ts := "2024-01-01T00:00:20Z" }] : List ChatItem),
      chatItemKey it ∈
        ([{ id := "a", ts := "2024-01-01T00:00:10Z" }] : List ChatItem).map
          chatItemKey) ∧
    (([{ id := "a", ts := "2024-01-01T00:00:10Z" }] : List ChatItem).length ≤ 200) ∧
    mergeNewer [{ id := "a", ts := "2024-01-01T00:00:10Z" }]
        [{ id := "a", ts := "2024-01-01T00:00:20Z" }] =
      [{ id := "a", ts := "2024-01-01T00:00:10Z" }] ∧
    maxChatTs (mergeNewer [{ id := "a", ts := "2024-01-01T00:00:10Z" }]
        [{ id := "a", ts := "2024-01-01T00:00:20Z" }]) =
      maxChatTs [{ id := "a", ts := "2024-01-01T00:00:10Z" }] := by
  have h := merge_dup_batch_noop [{ id := "a", ts := "2024-01-01T00:00:10Z" }]
    [{ id := "a", ts := "2024-01-01T00:00:20Z" }] (by decide) (by decide)
  exact ⟨by decide, by decide, h.1, h.2⟩

/-- Counterexample to C4 as stated: the boundary echo carries a timestamp
beyond the current maximum, yet after the merge the forward cursor (the
window maximum) still reads the old value — it was not advanced. -/
theorem dup_key_does_not_advance_cursor :
    (∀ it ∈ ([{ id := "a", ts := "2024-01-01T00:00:20Z" }] : List ChatItem),
      chatItemKey it ∈
        ([{ id := "a", ts := "2024-01-01T00:00:10Z" }] : List ChatItem).map
          chatItemKey) ∧
    maxChatTs [{ id := "a", ts := "2024-01-01T00:00:10Z" }] <
      "2024-01-01T00:00:20Z" ∧
    maxChatTs (mergeNewer [{ id := "a", ts := "2024-01-01T00:00:10Z" }]
        [{ id := "a", ts := "2024-01-01T00:00:20Z" }]) ≠
      "2024-01-01T00:00:20Z" := by
  decide

/-- The pagination anchor as the spec words it: the id of the oldest item
currently in the window (none when the window is empty or its oldest item
has no id).  Modelled from the spec for comparison with the code's
`firstId` scan. -/
def specOldestAnchor (items : List ChatItem) : Option String :=
  match items with
  | [] => none
  | it :: _ => if it.id = "" then none else some it.id

lemma firstId_eq_none_iff (l : List ChatItem) :
    firstId l = none ↔ ∀ it ∈ l, it.id = "" := by
  induction l with
  | nil => simp [firstId]
  | cons it rest ih =>
    simp only [firstId]
    by_cases h : it.id = ""
    · rw [if_pos h, ih]
      constructor
      · intro hall it2 hmem
        rcases List.mem_cons.mp hmem with he | hm
        · subst he; exact h
        · exact hall it2 hm
      · intro hall it2 hmem
        exact hall it2 (List.mem_cons_of_mem it hmem)
    · rw [if_neg h]
      constructor
      · intro hx; cases hx
      · intro hall
        exact absurd (hall it (List.mem_cons_self it rest)) h

lemma firstId_spec (l : List ChatItem) (a : String) (h : firstId l = some a) :
    ∃ l1 it l2, l = l1 ++ it :: l2 ∧ it.id = a ∧ a ≠ "" ∧
      ∀ x ∈ l1, x.id = "" := by
  induction l with
  | nil => cases h
  | cons it rest ih =>
    simp only [firstId] at h
    by_cases hid : it.id = ""
    · rw [if_pos hid] at h
      obtain ⟨l1, it2, l2, heq, hida, hane, hall⟩ := ih h
      refine ⟨it :: l1, it2, l2, by rw [heq]; rfl, hida, hane, ?_⟩
      intro x hx
      rcases List.mem_cons.mp hx with he | hm
      · subst he; exact hid
      · exact hall x hm
    · rw [if_neg hid] at h
      injection h with h2
      exact ⟨[], it, rest, rfl, h2, h2 ▸ hid, fun x hx => absurd hx (List.not_mem_nil x)⟩

/-- Claim C8 (corrected; theorem for the amended claim): when no window item
has an id, `loadOlderChat` issues no request, leaves the window unchanged
and forces `hasOlder` to false (the empty window included); when the scan
finds an anchor, it is the id of the oldest item THAT HAS an id — every
item in front of it is id-less — and the fetch is issued with it. -/
theorem loadOlder_anchor (st : ChatState) (a : String)
    (hfl : st.chatLoadingOlder = false) :
    ((∀ it ∈ st.chatItems, it.id = "") →
      loadOlderStart st = ({ st with chatHasOlder := false }, none)) ∧
    (firstId st.chatItems = some a →
      loadOlderStart st = ({ st with chatLoadingOlder := true }, some a) ∧
      ∃ l1 it l2, st.chatItems = l1 ++ it :: l2 ∧ it.id = a ∧ a ≠ "" ∧
        ∀ x ∈ l1, x.id = "") := by
  constructor
  · intro hall
    have hnone := (firstId_eq_none_iff st.chatItems).mpr hall
    simp [loadOlderStart, hfl, hnone]
  · intro hsome
    exact ⟨by simp [loadOlderStart, hfl, hsome], firstId_spec _ _ hsome⟩

/-- Witness for the amended C8: an empty window forces `hasOlder := false`
with no fetch; a window fronted by an id-less item anchors at the first
id-bearing item. -/
theorem loadOlder_anchor_witness :
    (loadOlderStart { chatItems := [], chatHasOlder := true } =
      ({ chatItems := [], chatHasOlder := false }, none)) ∧
    (loadOlderStart
        { chatItems := [{ ts := "2024-01-01T00:00:05Z", role := "user", text := "m1" },
                        { id := "b", ts := "2024-01-01T00:00:09Z" }] } =
      ({ chatItems := [{ ts := "2024-01-01T00:00:05Z", role := "user", text := "m1" },
                       { id := "b", ts := "2024-01-01T00:00:09Z" }],
         chatLoadingOlder := true }, some "b")) := by
  have h1 := (loadOlder_anchor { chatItems := [], chatHasOlder := true } "b" rfl).1
    (by intro it hit; cases hit)
  have h2 := (loadOlder_anchor
    { chatItems := [{ ts := "2024-01-01T00:00:05Z", role := "user", text := "m1" },
                    { id := "b", ts := "2024-01-01T00:00:09Z" }] } "b" rfl).2
    (by decide)
  exact ⟨h1, h2.1⟩

/-- Counterexample to C8 as stated: the oldest item has no id, yet a fetch
IS issued, anchored at a later item's id — the code scans for the first
id-bearing item, which need not be the oldest item. -/
theorem anchor_not_oldest_item :
    firstId [{ ts := "2024-01-01T00:00:05Z", role := "user", text := "m1" },
             { id := "b", ts := "2024-01-01T00:00:09Z" }] = some "b" ∧
    specOldestAnchor
        [{ ts := "2024-01-01T00:00:05Z", role := "user", text := "m1" },
         { id := "b", ts := "2024-01-01T00:00:09Z" }] = none ∧
    (loadOlderStart
        { chatItems := [{ ts := "2024-01-01T00:00:05Z", role := "user", text := "m1" },
                        { id := "b", ts := "2024-01-01T00:00:09Z" }] }).2 = some "b" := by
  decide

/-- Invariant of the merge fold: the key set tracks exactly the keys of the
accumulated window, and those keys are duplicate-free. -/
def MergeInv (acc : List ChatItem × List String) : Prop :=
  (∀ x, x ∈ acc.2 ↔ x ∈ acc.1.map chatItemKey) ∧ (acc.1.map chatItemKey).Nodup

lemma mergeStep_inv (acc : List ChatItem × List String) (it : ChatItem)
    (h : MergeInv acc) : MergeInv (mergeStep acc it) := by
  obtain ⟨hiff, hnd⟩ := h
  simp only [mergeStep]
  split
  · exact ⟨hiff, hnd⟩
  · rename_i hcond
    rw [not_or] at hcond
    obtain ⟨-, hnc⟩ := hcond
    have hnotmem : chatItemKey it ∉ acc.1.map chatItemKey := by
      intro hm
      exact hnc (contains_iff_mem.mpr ((hiff _).mpr hm))
    constructor
    · intro x
      simp only [List.mem_cons, List.map_append, List.mem_append, List.map_cons,
        List.map_nil, List.mem_singleton, List.not_mem_nil, or_false]
      rw [hiff x]
      tauto
    · rw [List.map_append, List.nodup_append]
      refine ⟨hnd, by simp, ?_⟩
      intro a ha
      simp only [List.map_cons, List.map_nil, List.mem_singleton]
      intro he
      exact hnotmem (he ▸ ha)

lemma foldl_mergeStep_inv (b : List ChatItem)
    (acc : List ChatItem × List String) (h : MergeInv acc) :
    MergeInv (b.foldl mergeStep acc) := by
  induction b generalizing acc with
  | nil => exact h
  | cons it rest ih => rw [List.foldl_cons]; exact ih _ (mergeStep_inv acc it h)

lemma foldl_mergeStep_mono (b : List ChatItem)
    (acc : List ChatItem × List String) (x : String) (h : x ∈ acc.2) :
    x ∈ (b.foldl mergeStep acc).2 := by
  induction b generalizing acc with
  | nil => exact h
  | cons it rest ih =>
    rw [List.foldl_cons]
    apply ih
    simp only [mergeStep]
    split
    · exact h
    · exact List.mem_cons_of_mem _ h

lemma foldl_mergeStep_covers (b : List ChatItem)
    (acc : List ChatItem × List String) :
    ∀ it ∈ b, chatItemKey it ∈ (b.foldl mergeStep acc).2 := by
  induction b generalizing acc with
  | nil => intro it h; cases h
  | cons it2 rest ih =>
    intro it hmem
    rw [List.foldl_cons]
    rcases List.mem_cons.mp hmem with he | hm
    · subst he
      apply foldl_mergeStep_mono
      simp only [mergeStep]
      split
      · rename_i hcond
        rcases hcond with hk | hc
        · exact absurd hk (chatItemKey_ne_empty it)
        · exact contains_iff_mem.mp hc
      · exact List.mem_cons_self _ _
    · exact ih _ it hm

lemma mergeStep_len (acc : List ChatItem × List String) (it : ChatItem) :
    (mergeStep acc it).1.length ≤ acc.1.length + 1 := by
  simp only [mergeStep]
  split
  · omega
  · dsimp only
    rw [List.length_append, List.length_singleton]

lemma foldl_mergeStep_len (b : List ChatItem) :
    ∀ acc : List ChatItem × List String,
      (b.foldl mergeStep acc).1.length ≤ acc.1.length + b.length := by
  induction b with
  | nil => intro acc; simp
  | cons it rest ih =>
    intro acc
    rw [List.foldl_cons, List.length_cons]
    have h1 := ih (mergeStep acc it)
    have h2 := mergeStep_len acc it
    omega

/-- Claim C5 (corrected; theorem for the amended claim): provided the window
keys are duplicate-free and the window plus the batch fit within the
200-item cap (so the trim evicts nothing — in particular for any batch
within DELTA_LIMIT merged into a window with room), merging the same batch
twice equals merging it once, and the result's keys are duplicate-free. -/
theorem merge_idempotent (w b : List ChatItem)
    (hnd : (w.map chatItemKey).Nodup)
    (hlen : w.length + b.length ≤ 200) :
    mergeNewer (mergeNewer w b) b = mergeNewer w b ∧
    ((mergeNewer w b).map chatItemKey).Nodup := by
  by_cases hb : b = []
  · subst hb
    constructor <;> simp [mergeNewer, hnd]
  · have hinv0 : MergeInv (w, w.map chatItemKey) := ⟨fun _ => Iff.rfl, hnd⟩
    set acc := b.foldl mergeStep (w, w.map chatItemKey) with hacc
    have hinv := foldl_mergeStep_inv b _ hinv0
    rw [← hacc] at hinv
    have hlenm : acc.1.length ≤ 200 := by
      have := foldl_mergeStep_len b (w, w.map chatItemKey)
      rw [← hacc] at this
      dsimp only at this
      omega
    have hmerge1 : mergeNewer w b = acc.1 := by
      simp only [mergeNewer]
      rw [if_neg hb, ← hacc, if_neg (by omega)]
    have hcov : ∀ it ∈ b, chatItemKey it ∈ acc.1.map chatItemKey := by
      intro it hit
      have := foldl_mergeStep_covers b (w, w.map chatItemKey) it hit
      rw [← hacc] at this
      exact (hinv.1 _).mp this
    have h2 : mergeNewer acc.1 b = acc.1 := by
      simp only [mergeNewer]
      rw [if_neg hb, foldl_mergeStep_all_dup b acc.1 _ hcov]
      dsimp only
      rw [if_neg (by omega)]
    rw [hmerge1]
    exact ⟨h2, hinv.2⟩

/-- Witness for the amended C5. -/
theorem merge_idempotent_witness :
    (([{ id := "a", ts := "2024-01-01T00:00:10Z" }] : List ChatItem).map
        chatItemKey).Nodup ∧
    ([({ id := "a", ts := "2024-01-01T00:00:10Z" } : ChatItem)].length +
      ([{ id := "a", ts := "2024-01-01T00:00:10Z" },
        { id := "b", ts := "2024-01-01T00:00:11Z" }] : List ChatItem).length ≤ 200) ∧
    mergeNewer
        (mergeNewer [{ id := "a", ts := "2024-01-01T00:00:10Z" }]
          [{ id := "a", ts := "2024-01-01T00:00:10Z" },
           { id := "b", ts := "2024-01-01T00:00:11Z" }])
        [{ id := "a", ts := "2024-01-01T00:00:10Z" },
         { id := "b", ts := "2024-01-01T00:00:11Z" }] =
      mergeNewer [{ id := "a", ts := "2024-01-01T00:00:10Z" }]
        [{ id := "a", ts := "2024-01-01T00:00:10Z" },
         { id := "b", ts := "2024-01-01T00:00:11Z" }] ∧
    ((mergeNewer [{ id := "a", ts := "2024-01-01T00:00:10Z" }]
        [{ id := "a", ts := "2024-01-01T00:00:10Z" },
         { id := "b", ts := "2024-01-01T00:00:11Z" }]).map chatItemKey).Nodup := by
  have h := merge_idempotent [{ id := "a", ts := "2024-01-01T00:00:10Z" }]
    [{ id := "a", ts := "2024-01-01T00:00:10Z" },
     { id := "b", ts := "2024-01-01T00:00:11Z" }] (by decide) (by decide)
  exact ⟨by decide, by decide, h.1, h.2⟩

/-- A 200-item window of distinct-id items at one timestamp, used to refute
unrestricted merge idempotence. -/
def c5win : List ChatItem :=
  (List.range 200).map
    (fun n => { id := String.mk [Char.ofNat (65 + n)], ts := "2024-01-01T00:00:05Z" })

/-- A batch that echoes the oldest window item and adds one fresh item: the
first merge trims the echoed item's original out of the window, so the
second merge re-appends the echo at the tail. -/
def c5batch : List ChatItem :=
  [{ id := String.mk [Char.ofNat 65], ts := "2024-01-01T00:00:05Z", text := "echo" },
   { id := "!", ts := "2024-01-01T00:00:05Z" }]

set_option maxRecDepth 80000 in
/-- Counterexample to C5 as stated: merging the same batch twice does NOT
leave the window unchanged when the first merge's trim evicted a window
item whose key occurs in the batch. -/
theorem merge_not_idempotent_after_trim :
    mergeNewer (mergeNewer c5win c5batch) c5batch ≠ mergeNewer c5win c5batch := by
  decide

/-- Kernel-reducible decidability for the string order's `≤`, matching
`stringLtDec`. -/
instance stringLeDec (s t : String) : Decidable (s ≤ t) :=
  decidable_of_iff (s.toList ≤ t.toList) String.le_iff_toList_le.symm

/-- The window ordering invariant: non-decreasing by timestamp. -/
abbrev SortedTs (l : List ChatItem) : Prop :=
  l.Pairwise (fun a b => a.ts ≤ b.ts)

lemma string_empty_le (s : String) : "" ≤ s :=
  String.le_iff_toList_le.mpr (by simpa using List.nil_le)

lemma le_foldl_maxTs (w : List ChatItem) :
    ∀ mx : String, mx ≤ w.foldl maxTsStep mx := by
  induction w with
  | nil => intro mx; exact le_refl mx
  | cons it rest ih =>
    intro mx
    rw [List.foldl_cons]
    refine le_trans ?_ (ih (maxTsStep mx it))
    simp only [maxTsStep]
    split
    · rename_i h; exact le_of_lt h.2
    · exact le_refl mx

lemma mem_ts_le_foldl (w : List ChatItem) :
    ∀ mx : String, ∀ x ∈ w, x.ts ≤ w.foldl maxTsStep mx := by
  induction w with
  | nil => intro mx x hx; cases hx
  | cons it rest ih =>
    intro mx x hx
    rw [List.foldl_cons]
    rcases List.mem_cons.mp hx with he | hm
    · rw [he]
      refine le_trans ?_ (le_foldl_maxTs rest (maxTsStep mx it))
      simp only [maxTsStep]
      split
      · exact le_refl it.ts
      · rename_i h
        rw [not_and_or] at h
        rcases h with h1 | h2
        · rw [not_not] at h1
          rw [h1]
          exact string_empty_le mx
        · exact le_of_not_lt h2
    · exact ih (maxTsStep mx it) x hm

lemma mem_ts_le_maxChatTs (w : List ChatItem) (x : ChatItem) (hx : x ∈ w) :
    x.ts ≤ maxChatTs w := mem_ts_le_foldl w "" x hx

lemma foldl_mergeStep_sorted (b : List ChatItem) :
    ∀ acc : List ChatItem × List String, SortedTs acc.1 →
      b.Pairwise (fun a c => a.ts ≤ c.ts) →
      (∀ it ∈ b, ∀ x ∈ acc.1, x.ts ≤ it.ts) →
      SortedTs (b.foldl mergeStep acc).1 := by
  induction b with
  | nil => intro acc h _ _; exact h
  | cons it rest ih =>
    intro acc hacc hpb hcross
    rw [List.pairwise_cons] at hpb
    obtain ⟨hd, htl⟩ := hpb
    rw [List.foldl_cons]
    by_cases hcond : (chatItemKey it = "" ∨ acc.2.contains (chatItemKey it) = true)
    · have hstep : mergeStep acc it = acc := by
        simp only [mergeStep]
        rw [if_pos hcond]
      rw [hstep]
      exact ih acc hacc htl
        (fun i hi x hx => hcross i (List.mem_cons_of_mem _ hi) x hx)
    · have hstep : mergeStep acc it = (acc.1 ++ [it], chatItemKey it :: acc.2) := by
        simp only [mergeStep]
        rw [if_neg hcond]
      rw [hstep]
      apply ih
      · show SortedTs (acc.1 ++ [it])
        refine List.pairwise_append.mpr ⟨hacc, List.pairwise_singleton _ _, ?_⟩
        intro a ha c hc
        rw [List.mem_singleton] at hc
        rw [hc]
        exact hcross it (List.mem_cons_self _ _) a ha
      · exact htl
      · intro i hi x hx
        rcases List.mem_append.mp hx with hxa | hxs
        · exact hcross i (List.mem_cons_of_mem _ hi) x hxa
        · rw [List.mem_singleton] at hxs
          rw [hxs]
          exact hd i hi

/-- A poll merge of an ascending batch at or above the window's maximum
timestamp preserves the ordering invariant. -/
lemma mergeNewer_sorted (w b : List ChatItem) (hw : SortedTs w)
    (hb : b.Pairwise (fun a c => a.ts ≤ c.ts))
    (hbound : ∀ it ∈ b, maxChatTs w ≤ it.ts) :
    SortedTs (mergeNewer w b) := by
  by_cases hbe : b = []
  · subst hbe
    simpa [mergeNewer] using hw
  · have hcross : ∀ it ∈ b, ∀ x ∈ w, x.ts ≤ it.ts := by
      intro it hit x hx
      exact le_trans (mem_ts_le_maxChatTs w x hx) (hbound it hit)
    have hsorted := foldl_mergeStep_sorted b (w, w.map chatItemKey) hw hb hcross
    simp only [mergeNewer]
    rw [if_neg hbe]
    split
    · exact List.Pairwise.sublist (List.drop_sublist _ _) hsorted
    · exact hsorted

lemma syncChatSeenIds_chatItems (st : ChatState) :
    (syncChatSeenIds st).chatItems = st.chatItems := by
  unfold syncChatSeenIds
  split <;> rfl

/-- The items the pagination filter keeps for prepending. -/
def keptOlder (w items : List ChatItem) : List ChatItem :=
  items.filter (fun it => ¬ (it.id = "" ∨
    ((w.map (fun x => x.id)).filter (fun i => i ≠ "")).contains it.id))

lemma loadOlderApply_window (st : ChatState) (items : List ChatItem)
    (ho : Bool) :
    (loadOlderApply st items ho).chatItems =
      keptOlder st.chatItems items ++ st.chatItems := by
  show (syncChatSeenIds _).chatItems = _
  rw [syncChatSeenIds_chatItems]
  show (if _ = ([] : List ChatItem) then st.chatItems else _) = _
  split
  · rename_i h
    rw [show keptOlder st.chatItems items = [] from h, List.nil_append]
  · rfl

/-- A pagination prepend of an ascending batch entirely at or below the
window's timestamps preserves the ordering invariant. -/
lemma loadOlder_sorted (st : ChatState) (items : List ChatItem) (ho : Bool)
    (hw : SortedTs st.chatItems)
    (hb : items.Pairwise (fun a c => a.ts ≤ c.ts))
    (hold : ∀ it ∈ items, ∀ x ∈ st.chatItems, it.ts ≤ x.ts) :
    SortedTs (loadOlderApply st items ho).chatItems := by
  rw [loadOlderApply_window]
  refine List.pairwise_append.mpr
    ⟨List.Pairwise.sublist (List.filter_sublist _) hb, hw, ?_⟩
  intro a ha c hc
  exact hold a (List.mem_of_mem_filter ha) c hc

/-- A window mutation of the sync engine: one poll-cycle merge or one
backward-pagination result. -/
inductive ChatOp where
  | poll (newer : List ChatItem)
  | older (items : List ChatItem) (has_older : Bool)

/-- Apply one operation to the engine state, as the code does. -/
def applyOp (st : ChatState) : ChatOp → ChatState
  | ChatOp.poll newer => pollApply st (pollStart st) newer
  | ChatOp.older items ho => loadOlderApply st items ho

/-- Apply a whole sequence of operations. -/
def applyOps (st : ChatState) (ops : List ChatOp) : ChatState :=
  ops.foldl applyOp st

/-- The server-contract side conditions of a sequence of operations, each
taken at the state where it applies: delta batches are ascending with
timestamps at or above the window maximum; pagination batches are ascending
and older than everything in the window. -/
inductive GoodSeq : ChatState → List ChatOp → Prop where
  | nil (st : ChatState) : GoodSeq st []
  | poll (st : ChatState) (newer : List ChatItem) (ops : List ChatOp)
      (hasc : newer.Pairwise (fun a c => a.ts ≤ c.ts))
      (hbound : ∀ it ∈ newer, maxChatTs st.chatItems ≤ it.ts)
      (h : GoodSeq (applyOp st (ChatOp.poll newer)) ops) :
      GoodSeq st (ChatOp.poll newer :: ops)
  | older (st : ChatState) (items : List ChatItem) (ho : Bool)
      (ops : List ChatOp)
      (hasc : items.Pairwise (fun a c => a.ts ≤ c.ts))
      (hold : ∀ it ∈ items, ∀ x ∈ st.chatItems, it.ts ≤ x.ts)
      (h : GoodSeq (applyOp st (ChatOp.older items ho)) ops) :
      GoodSeq st (ChatOp.older items ho :: ops)

/-- Claim C6 (corrected; theorem for the amended claim): the window stays
non-decreasing by timestamp under every sequence of poll merges (batches
ascending, at or above the window maximum) and pagination prepends whose
batches are ascending and older than every item in the window — the
condition that actually holds when the oldest window item is the anchor.
(As stated, with pagination batches merely older than the anchor, the
claim fails: see the counterexample.) -/
theorem window_sorted_after_good_ops (st : ChatState) (ops : List ChatOp)
    (hg : GoodSeq st ops) :
    SortedTs st.chatItems → SortedTs (applyOps st ops).chatItems := by
  induction hg with
  | nil st2 => exact fun hw => hw
  | poll st2 newer ops2 hasc hbound h ih =>
    intro hw
    show SortedTs (List.foldl applyOp (applyOp st2 (ChatOp.poll newer)) ops2).chatItems
    apply ih
    show SortedTs (mergeNewer st2.chatItems newer)
    exact mergeNewer_sorted _ _ hw hasc hbound
  | older st2 items ho ops2 hasc hold h ih =>
    intro hw
    show SortedTs (List.foldl applyOp (applyOp st2 (ChatOp.older items ho)) ops2).chatItems
    apply ih
    exact loadOlder_sorted st2 items ho hw hasc hold

/-- Witness for the amended C6: one poll merge then one pagination prepend
on a concrete sorted window. -/
theorem window_sorted_after_good_ops_witness :
    SortedTs (applyOps { chatItems := [{ id := "b", ts := "2024-01-01T00:00:05Z" }] }
      [ChatOp.poll [{ id := "c", ts := "2024-01-01T00:00:06Z" }],
       ChatOp.older [{ id := "a", ts := "2024-01-01T00:00:04Z" }] true]).chatItems := by
  apply window_sorted_after_good_ops
  · apply GoodSeq.poll
    · decide
    · decide
    · apply GoodSeq.older
      · decide
      · decide
      · exact GoodSeq.nil _
  · decide

/-- Counterexample to C6 as stated: the window is sorted and the pagination
batch is ascending and strictly older than the anchor (the first id-bearing
item), yet the prepend puts a newer item in front of an older id-less one
and the result is no longer sorted. -/
theorem pagination_breaks_ordering :
    SortedTs [{ ts := "2024-01-01T00:00:05Z", role := "user", text := "m1" },
              { id := "b", ts := "2024-01-01T00:00:09Z" }] ∧
    firstId [{ ts := "2024-01-01T00:00:05Z", role := "user", text := "m1" },
             { id := "b", ts := "2024-01-01T00:00:09Z" }] = some "b" ∧
    ([{ id := "a", ts := "2024-01-01T00:00:07Z" }] : List ChatItem).Pairwise
      (fun a c => a.ts ≤ c.ts) ∧
    ("2024-01-01T00:00:07Z" : String) < "2024-01-01T00:00:09Z" ∧
    ¬ SortedTs (loadOlderApply
        { chatItems := [{ ts := "2024-01-01T00:00:05Z", role := "user", text := "m1" },
                        { id := "b", ts := "2024-01-01T00:00:09Z" }],
          chatLoadingOlder := true }
        [{ id := "a", ts := "2024-01-01T00:00:07Z" }] true).chatItems := by
  decide

end Clawdbot
